import Mathlib

/-!
# Verification of the Toit VM object model and stack operations

A shallow embedding of the tagged-pointer value encoding, the heap-object
byte-content extractors, the string hash, and the `Stack` object operations
from `src/objects.h`, `src/objects.cc` and `src/interpreter.h`, together
with proofs and refutations of the specified properties.

Machine words are modelled as `Nat` (for raw tag bit manipulation) or `Int`
(for addresses, slot contents and signed quantities); machine arithmetic
that can wrap is made explicit with `% 2^w` style operations.
-/

set_option autoImplicit false

namespace Toit

/-! ## Value tagging (objects.h, class Object) -/

def SMI_TAG_SIZE : Nat := 1
def SMI_TAG_MASK : Nat := (1 <<< SMI_TAG_SIZE) - 1
def SMI_TAG : Nat := 0

def NON_SMI_TAG_SIZE : Nat := 2
def NON_SMI_TAG_MASK : Nat := (1 <<< NON_SMI_TAG_SIZE) - 1
def HEAP_TAG : Nat := 0x1
def MARKED_TAG : Nat := 0x3

/-- Source `Object::is_smi`: the low bit of the word is `0`. -/
def Object.is_smi (v : Nat) : Bool := v &&& SMI_TAG_MASK == SMI_TAG

/-- Source `Object::is_heap_object`: the low two bits of the word are `01`. -/
def Object.is_heap_object (v : Nat) : Bool := v &&& NON_SMI_TAG_MASK == HEAP_TAG

/-- Source `Object::is_marked`: the low two bits of the word are `11`. -/
def Object.is_marked (v : Nat) : Bool := v &&& NON_SMI_TAG_MASK == MARKED_TAG

/-- Source `HeapObject::mark`: `raw | 0x3`. -/
def HeapObject.mark (v : Nat) : Nat := v ||| 0x3

/-- Source `Object::unmark`: shift the low two bits away, shift back, re-add `HEAP_TAG`. -/
def Object.unmark (v : Nat) : Nat :=
  ((v >>> NON_SMI_TAG_SIZE) <<< NON_SMI_TAG_SIZE) + HEAP_TAG

theorem mask_smi_eq_mod (v : Nat) : v &&& SMI_TAG_MASK = v % 2 := by
  show v &&& 1 = v % 2
  exact Nat.and_one_is_mod v

theorem mask_non_smi_eq_mod (v : Nat) : v &&& NON_SMI_TAG_MASK = v % 4 := by
  show v &&& 3 = v % 4
  have h : (3 : Nat) = 2 ^ 2 - 1 := rfl
  have h4 : (4 : Nat) = 2 ^ 2 := rfl
  rw [h, h4, Nat.and_pow_two_sub_one_eq_mod]

/-- Bitwise-or with `0b11` fixes the low two bits and keeps the rest. -/
theorem lor_three (n : Nat) : n ||| 3 = 4 * (n / 4) + 3 := by
  apply Nat.eq_of_testBit_eq
  intro i
  simp only [Nat.testBit_or]
  simp only [Nat.testBit_to_div_mod]
  match i with
  | 0 =>
    have h : (4 * (n / 4) + 3) % 2 = 1 := by omega
    simp [h]
  | 1 =>
    have h : (4 * (n / 4) + 3) / 2 % 2 = 1 := by omega
    simp [h]
  | (j + 2) =>
    have epow : (2 : Nat) ^ (j + 2) = 4 * 2 ^ j := by rw [pow_add]; ring
    have e1 : n / 2 ^ (j + 2) = n / 4 / 2 ^ j := by
      rw [epow, ← Nat.div_div_eq_div_mul]
    have e2 : (4 * (n / 4) + 3) / 2 ^ (j + 2) = n / 4 / 2 ^ j := by
      rw [epow, ← Nat.div_div_eq_div_mul]
      congr 1
      omega
    have e3 : (3 : Nat) / 2 ^ (j + 2) = 0 :=
      Nat.div_eq_of_lt (by
        calc (3 : Nat) < 2 ^ 2 := by omega
        _ ≤ 2 ^ (j + 2) := Nat.pow_le_pow_right (by omega) (by omega))
    rw [e1, e2, e3]
    simp

theorem unmark_eq (v : Nat) : Object.unmark v = 4 * (v / 4) + 1 := by
  unfold Object.unmark NON_SMI_TAG_SIZE HEAP_TAG
  rw [Nat.shiftLeft_eq, Nat.shiftRight_eq_div_pow]
  ring_nf

/-- C9: for every machine word, exactly one of `is_smi`, `is_heap_object`,
`is_marked` holds — the low bit `0` case, the `01` case and the `11` case
partition all words. -/
theorem tag_trichotomy (v : Nat) :
    (Object.is_smi v = true ∧ Object.is_heap_object v = false ∧ Object.is_marked v = false) ∨
    (Object.is_smi v = false ∧ Object.is_heap_object v = true ∧ Object.is_marked v = false) ∨
    (Object.is_smi v = false ∧ Object.is_heap_object v = false ∧ Object.is_marked v = true) := by
  unfold Object.is_smi Object.is_heap_object Object.is_marked
  simp only [beq_iff_eq, Bool.and_eq_true, decide_eq_true_eq, beq_eq_false_iff_ne, ne_eq,
    mask_smi_eq_mod, mask_non_smi_eq_mod]
  unfold SMI_TAG HEAP_TAG MARKED_TAG
  omega

/-- C6: `mark` and `unmark` are mutually inverse on the tags they are meant
for: unmarking a marked heap pointer (low bits `01`) gives it back, and
marking an unmarked marked-pointer (low bits `11`) gives it back. -/
theorem mark_unmark_involution (h m : Nat)
    (hh : Object.is_heap_object h = true) (hm : Object.is_marked m = true) :
    Object.unmark (HeapObject.mark h) = h ∧ HeapObject.mark (Object.unmark m) = m := by
  unfold Object.is_heap_object at hh
  unfold Object.is_marked at hm
  rw [beq_iff_eq, mask_non_smi_eq_mod] at hh hm
  unfold HEAP_TAG at hh
  unfold MARKED_TAG at hm
  constructor
  · show Object.unmark (h ||| 3) = h
    rw [unmark_eq, lor_three]
    omega
  · show Object.unmark m ||| 3 = m
    rw [unmark_eq, lor_three]
    omega

/-- Witness for `mark_unmark_involution`: the concrete heap pointer `0x65`
(low bits `01`) and marked pointer `0x67` (low bits `11`). -/
theorem mark_unmark_involution_witness :
    Object.is_heap_object 0x65 = true ∧ Object.is_marked 0x67 = true ∧
    Object.unmark (HeapObject.mark 0x65) = 0x65 ∧
    HeapObject.mark (Object.unmark 0x67) = 0x67 := by
  refine ⟨by decide, by decide, ?_⟩
  exact mark_unmark_involution 0x65 0x67 (by decide) (by decide)

/-! ## Interpreter comparison constants (interpreter.h) -/

namespace Interpreter

def COMPARISON_FAILED : Int := 0
def COMPARE_TO_BIAS : Int := -2
def COMPARE_TO_MINUS_1 : Int := 1
def COMPARE_TO_ZERO : Int := 2
def COMPARE_TO_PLUS_1 : Int := 3
def COMPARE_TO_MASK : Int := 3
def COMPARE_TO_LESS_FOR_MIN : Int := 4
def STRICTLY_LESS : Int := 8
def LESS_EQUAL : Int := 16
def EQUAL : Int := 32
def GREATER_EQUAL : Int := 64
def STRICTLY_GREATER : Int := 128

end Interpreter

/-- Or-ing a non-negative value into all-ones (`-1` in two's complement)
leaves all-ones. -/
theorem neg_one_lor (n : Int) (h : 0 ≤ n) : Int.lor (-1) n = -1 := by
  obtain ⟨m, rfl⟩ := Int.eq_ofNat_of_zero_le h
  show Int.lor (-1) (Int.ofNat m) = -1
  have h1 : Int.lor (-1) (Int.ofNat m) = Int.negSucc (Nat.ldiff 0 m) := rfl
  have h2 : Nat.ldiff 0 m = 0 := by
    unfold Nat.ldiff
    rw [Nat.bitwise_zero_left]
    rfl
  rw [h1, h2]
  rfl

/-- C2 counterexample: the signed value of
`(COMPARE_TO_MINUS_1 + COMPARE_TO_BIAS) | STRICTLY_LESS | LESS_EQUAL`
is `-1` (or-ing anything into all-ones stays all-ones), not `25`. -/
theorem biased_compare_payload_not_25 :
    Int.lor (Int.lor (Interpreter.COMPARE_TO_MINUS_1 + Interpreter.COMPARE_TO_BIAS)
      Interpreter.STRICTLY_LESS) Interpreter.LESS_EQUAL = -1 ∧
    Int.lor (Int.lor (Interpreter.COMPARE_TO_MINUS_1 + Interpreter.COMPARE_TO_BIAS)
      Interpreter.STRICTLY_LESS) Interpreter.LESS_EQUAL ≠ 25 := by
  unfold Interpreter.COMPARE_TO_MINUS_1 Interpreter.COMPARE_TO_BIAS
    Interpreter.STRICTLY_LESS Interpreter.LESS_EQUAL
  have e : (1 : Int) + -2 = -1 := by norm_num
  rw [e, neg_one_lor 8 (by norm_num), neg_one_lor 16 (by norm_num)]
  norm_num

/-- C2 amended: the `25` payload is the un-biased encoding
`COMPARE_TO_MINUS_1 | STRICTLY_LESS | LESS_EQUAL`; applying the mask and
bias to it decodes the compact comparison value `-1`, while or-ing the
flag bits into the already-biased `-1` yields `-1`. -/
theorem compare_payload_25_decodes_minus_1 :
    Int.lor (Int.lor Interpreter.COMPARE_TO_MINUS_1 Interpreter.STRICTLY_LESS)
      Interpreter.LESS_EQUAL = 25 ∧
    Int.land 25 Interpreter.COMPARE_TO_MASK + Interpreter.COMPARE_TO_BIAS = -1 ∧
    Int.lor (Int.lor (Interpreter.COMPARE_TO_MINUS_1 + Interpreter.COMPARE_TO_BIAS)
      Interpreter.STRICTLY_LESS) Interpreter.LESS_EQUAL = -1 := by
  refine ⟨?_, ?_, ?_⟩
  · unfold Interpreter.COMPARE_TO_MINUS_1 Interpreter.STRICTLY_LESS Interpreter.LESS_EQUAL
    simp [Int.lor]
  · unfold Interpreter.COMPARE_TO_MASK Interpreter.COMPARE_TO_BIAS
    have h : Int.land 25 3 = 1 := by
      have h1 : Int.land 25 3 = Int.ofNat (25 &&& 3) := rfl
      have h2 : (25 : Nat) &&& 3 = 1 := by decide
      rw [h1, h2]
      rfl
    rw [h]
    norm_num
  · unfold Interpreter.COMPARE_TO_MINUS_1 Interpreter.COMPARE_TO_BIAS
      Interpreter.STRICTLY_LESS Interpreter.LESS_EQUAL
    have e : (1 : Int) + -2 = -1 := by norm_num
    rw [e, neg_one_lor 8 (by norm_num), neg_one_lor 16 (by norm_num)]

/-! ## String hash (objects.cc, String::compute_hash_code_for) -/

/-- Truncation to a signed 16-bit value, as assigning to a C `int16` does. -/
def toInt16 (x : Int) : Int := (x + 32768) % 65536 - 32768

/-- Reinterpretation of a byte as a signed 8-bit value, as `static_cast<int8>`
does (the source forces the sign so the hash is deterministic). -/
def toInt8 (b : Nat) : Int := ((b : Int) + 128) % 256 - 128

def NO_HASH_CODE : Int := -1

/-- Source `String::compute_hash_code_for(str, str_len)`: `int16 hash = str_len;`
then `hash = 31 * hash + (int8) str[index]` over the bytes (each assignment
truncating to `int16`), and the sentinel result is replaced by `0`. -/
def compute_hash_code_for (str : List Nat) : Int :=
  let hash := str.foldl (fun h b => toInt16 (31 * h + toInt8 b)) (toInt16 str.length)
  if hash ≠ NO_HASH_CODE then hash else 0

/-- Modelled from the spec's words for comparison with the source: "hash =
length; for b in bytes: hash = 31*hash + (int8)b", carried in 16-bit signed
arithmetic, the sentinel result replaced by `0`. -/
def spec_hash_loop (hash : Int) : List Nat → Int
  | [] => hash
  | b :: rest => spec_hash_loop (toInt16 (31 * hash + toInt8 b)) rest

def spec_hash (bytes : List Nat) : Int :=
  let r := spec_hash_loop (toInt16 bytes.length) bytes
  if r = NO_HASH_CODE then 0 else r

theorem spec_hash_loop_eq_foldl (bytes : List Nat) :
    ∀ h : Int, spec_hash_loop h bytes =
      bytes.foldl (fun h b => toInt16 (31 * h + toInt8 b)) h := by
  induction bytes with
  | nil => intro h; rfl
  | cons b rest ih =>
      intro h
      simp only [spec_hash_loop, List.foldl_cons]
      exact ih _

/-- C8: the string hash computed by `compute_hash_code_for` equals the
spec's fold (`hash = length`, then `hash = 31*hash + (int8)b` per byte in
16-bit signed arithmetic, `-1` replaced by `0`), and the assigned hash never
equals the `NO_HASH_CODE` sentinel. -/
theorem compute_hash_code_matches_and_avoids_sentinel (str : List Nat) :
    compute_hash_code_for str = spec_hash str ∧
    compute_hash_code_for str ≠ NO_HASH_CODE := by
  constructor
  · unfold compute_hash_code_for spec_hash
    rw [spec_hash_loop_eq_foldl]
    by_cases h : str.foldl (fun h b => toInt16 (31 * h + toInt8 b)) (toInt16 str.length) =
        NO_HASH_CODE
    · simp [h]
    · simp [h]
  · unfold compute_hash_code_for
    by_cases h : str.foldl (fun h b => toInt16 (31 * h + toInt8 b)) (toInt16 str.length) =
        NO_HASH_CODE
    · simp [h, NO_HASH_CODE]
    · simp [h]

/-! ## Stack object (objects.h / objects.cc, class Stack)

A stack is a header word, a task back-reference, `length`, `top`, `try_top`,
`in_stack_overflow` and `length` word slots. Slot `i` holds the word
`slots i`; slot `0` is the limit and the base address is one past slot
`length - 1`. Addresses are modelled as `Int`; where an operation works on
machine addresses it takes the address `a` of slot `0`
(`_stack_limit_addr()`), so slot `i` lives at address `a + i` and
`_stack_base_addr()` is `a + length`. -/

structure Stack where
  header : Int
  task : Int
  length : Int
  top : Int
  try_top : Int
  in_stack_overflow : Bool
  slots : Int → Int

/-- Interpreter working registers loaded from a stack (interpreter.h). -/
structure Interpreter where
  limit : Int
  base : Int
  sp : Int
  try_sp : Int
  in_stack_overflow : Bool

/-- Source `Stack::copy_to(other, other_length)`: copy the header, memcpy the
`length() - top()` used slots to `top() + displacement`, copy the task slot,
and set length, top, try-top and the overflow flag on the target
(`displacement = other_length - length()`). Slots of the target outside the
copied range keep the target's prior contents. -/
def Stack.copy_to (s : Stack) (other : Stack) (other_length : Int) : Stack :=
  { header := s.header
    task := s.task
    length := other_length
    top := (other_length - s.length) + s.top
    try_top := (other_length - s.length) + s.try_top
    in_stack_overflow := s.in_stack_overflow
    slots := fun i =>
      if s.top + (other_length - s.length) ≤ i ∧
          i < s.top + (other_length - s.length) + (s.length - s.top) then
        s.slots (i - (other_length - s.length))
      else other.slots i }

/-- Source `Stack::roots_do`: walk the used slots `top .. length - 1` and call the
callback on every slot whose word does not point into the bytecode region
`[bytecodes_from, bytecodes_to)`. The result lists the visited
`(slot index, word)` pairs in order. -/
def Stack.roots_do_visited (s : Stack) (bytecodes_from bytecodes_to : Int) :
    List (Int × Int) :=
  (List.range (s.length - s.top).toNat).filterMap fun (i : Nat) =>
    if bytecodes_from ≤ s.slots (s.top + (i : Int)) ∧
        s.slots (s.top + (i : Int)) < bytecodes_to then none
    else some (s.top + (i : Int), s.slots (s.top + (i : Int)))

/-- Source `Stack::transfer_to_interpreter`: copy limit, base, sp, try-sp and the
overflow flag into the interpreter and set own `top` to `-1`. -/
def Stack.transfer_to_interpreter (s : Stack) (a : Int) : Stack × Interpreter :=
  ({ s with top := -1 },
   { limit := a
     base := a + s.length
     sp := a + s.top
     try_sp := a + s.try_top
     in_stack_overflow := s.in_stack_overflow })

/-- Source `Stack::transfer_from_interpreter`: restore `top`, `try_top` and
`in_stack_overflow` from the interpreter's live registers. -/
def Stack.transfer_from_interpreter (s : Stack) (a : Int) (it : Interpreter) :
    Stack :=
  { s with top := it.sp - a
           try_top := it.try_sp - a
           in_stack_overflow := it.in_stack_overflow }

/-- Source `Stack::_initialize(length)`: fresh stacks start empty with
`top = try_top = length` and the overflow flag clear. -/
def Stack.initialize_stack (s : Stack) (len : Int) : Stack :=
  { s with length := len
           top := len
           try_top := len
           in_stack_overflow := false }

def Stack.initial_length : Int := 64

/-- Source `Stack::_from_block`: `_stack_base_addr() - (block->value() - BLOCK_SALT)`.
`BLOCK_SALT` is defined outside the surveyed sources, so the salt is a
parameter. -/
def Stack.from_block (s : Stack) (a salt b : Int) : Int :=
  (a + s.length) - (b - salt)

/-- Source `Stack::_to_block`: `Smi::from(_stack_base_addr() - pointer + BLOCK_SALT)`,
modelled as the smi's integer value. -/
def Stack.to_block (s : Stack) (a salt p : Int) : Int :=
  (a + s.length) - p + salt

/-- Source `Interpreter::_from_block`: `_base - (block->value() - BLOCK_SALT)`. -/
def Interpreter.from_block (it : Interpreter) (salt b : Int) : Int :=
  it.base - (b - salt)

/-- Source `Interpreter::_to_block`: `Smi::from(_base - pointer + BLOCK_SALT)`. -/
def Interpreter.to_block (it : Interpreter) (salt p : Int) : Int :=
  it.base - p + salt

/-- C7: block references round-trip through encode/decode, for any salt:
for every slot pointer between limit and base, `from_block (to_block p) = p`,
both for the interpreter's registers and for the Stack object's own pair. -/
theorem from_block_to_block_round_trip (it : Interpreter) (s : Stack)
    (a salt p q : Int)
    (hp1 : it.limit ≤ p) (hp2 : p < it.base)
    (hq1 : a ≤ q) (hq2 : q < a + s.length) :
    it.from_block salt (it.to_block salt p) = p ∧
    s.from_block a salt (s.to_block a salt q) = q := by
  unfold Interpreter.from_block Interpreter.to_block Stack.from_block Stack.to_block
  omega

/-- Concrete four-slot stack used by the witnesses. -/
def exStack : Stack :=
  { header := 7, task := 11, length := 4, top := 2, try_top := 3,
    in_stack_overflow := false, slots := fun i => 10 * i }

/-- Concrete interpreter register file used by the witnesses. -/
def exInterp : Interpreter :=
  { limit := 100, base := 104, sp := 102, try_sp := 103,
    in_stack_overflow := false }

/-- Witness for `from_block_to_block_round_trip` at the pointer `101` inside
`exInterp` and the pointer `102` inside `exStack` placed at address `100`,
with salt `17`. -/
theorem from_block_to_block_round_trip_witness :
    (exInterp.limit ≤ 101 ∧ 101 < exInterp.base ∧
      100 ≤ 102 ∧ 102 < 100 + exStack.length) ∧
    exInterp.from_block 17 (exInterp.to_block 17 101) = 101 ∧
    exStack.from_block 100 17 (exStack.to_block 100 17 102) = 102 := by
  refine ⟨⟨by decide, by decide, by decide, by decide⟩, ?_⟩
  exact from_block_to_block_round_trip exInterp exStack 100 17 101 102
    (by decide) (by decide) (by decide) (by decide)

/-- C5: `roots_do` visits exactly the used slots (indices `top` to
`length - 1`) whose stored word does not lie in
`[bytecodes_from, bytecodes_to)`: a pair `(idx, v)` is visited iff `idx` is
a used slot index, `v` is the word stored there, and `v` is outside the
bytecode region. -/
theorem roots_do_visits_exactly_non_bytecode_slots (s : Stack)
    (bytecodes_from bytecodes_to idx v : Int) :
    (idx, v) ∈ s.roots_do_visited bytecodes_from bytecodes_to ↔
      (s.top ≤ idx ∧ idx < s.length ∧ v = s.slots idx ∧
        ¬(bytecodes_from ≤ v ∧ v < bytecodes_to)) := by
  unfold Stack.roots_do_visited
  rw [List.mem_filterMap]
  constructor
  · rintro ⟨i, hi, hsome⟩
    rw [List.mem_range] at hi
    split at hsome
    · exact absurd hsome (by simp)
    · next hcond =>
        rw [Option.some_inj, Prod.mk.injEq] at hsome
        obtain ⟨he1, he2⟩ := hsome
        subst he1
        subst he2
        refine ⟨by omega, by omega, rfl, hcond⟩
  · rintro ⟨h1, h2, h3, h4⟩
    refine ⟨(idx - s.top).toNat, by rw [List.mem_range]; omega, ?_⟩
    have he : s.top + ((idx - s.top).toNat : Int) = idx := by omega
    rw [he, ← h3, if_neg h4]

/-- C3: `copy_to` into a target of length `other_length ≥ used` copies the
used slots unchanged to `top + displacement`, displaces `top` and `try_top`
by `displacement = other_length - length`, preserves the task word, header
and overflow flag, preserves the used slot count, and block references keep
their base-relative position: decoding any block smi against the new base
lands at the same relative position, with the same stored word when that
position is a used slot. -/
theorem copy_to_preserves (s other : Stack) (other_length : Int)
    (hgrow : s.length - s.top ≤ other_length) :
    (∀ i : Int, 0 ≤ i → i < s.length - s.top →
      (s.copy_to other other_length).slots (s.top + (other_length - s.length) + i) =
        s.slots (s.top + i)) ∧
    (s.copy_to other other_length).top = (other_length - s.length) + s.top ∧
    (s.copy_to other other_length).try_top = (other_length - s.length) + s.try_top ∧
    (s.copy_to other other_length).task = s.task ∧
    (s.copy_to other other_length).header = s.header ∧
    (s.copy_to other other_length).in_stack_overflow = s.in_stack_overflow ∧
    (s.copy_to other other_length).length - (s.copy_to other other_length).top =
      s.length - s.top ∧
    (∀ a a' salt b : Int,
      (a' + (s.copy_to other other_length).length) -
          (s.copy_to other other_length).from_block a' salt b =
        (a + s.length) - s.from_block a salt b) ∧
    (∀ a a' salt b : Int,
      s.top ≤ s.from_block a salt b - a → s.from_block a salt b - a < s.length →
      (s.copy_to other other_length).slots
          ((s.copy_to other other_length).from_block a' salt b - a') =
        s.slots (s.from_block a salt b - a)) := by
  refine ⟨?_, rfl, rfl, rfl, rfl, rfl, ?_, ?_, ?_⟩
  · intro i h0 h1
    show (if s.top + (other_length - s.length) ≤ s.top + (other_length - s.length) + i ∧
        s.top + (other_length - s.length) + i <
          s.top + (other_length - s.length) + (s.length - s.top) then
      s.slots (s.top + (other_length - s.length) + i - (other_length - s.length))
      else other.slots (s.top + (other_length - s.length) + i)) = s.slots (s.top + i)
    rw [if_pos (by constructor <;> omega)]
    congr 1
    omega
  · show other_length - ((other_length - s.length) + s.top) = s.length - s.top
    omega
  · intro a a' salt b
    unfold Stack.from_block Stack.copy_to
    omega
  · intro a a' salt b
    intro hlo hhi
    unfold Stack.from_block at hlo hhi ⊢
    show (if s.top + (other_length - s.length) ≤
          a' + other_length - (b - salt) - a' ∧
        a' + other_length - (b - salt) - a' <
          s.top + (other_length - s.length) + (s.length - s.top) then
      s.slots (a' + other_length - (b - salt) - a' - (other_length - s.length))
      else other.slots (a' + other_length - (b - salt) - a')) =
      s.slots (a + s.length - (b - salt) - a)
    rw [if_pos (by constructor <;> omega)]
    congr 1
    omega

/-- Witness for `copy_to_preserves`: growing `exStack` (length 4, 2 used
slots) to length 6 displaces tops by 2 and copies the used words. -/
theorem copy_to_preserves_witness :
    (exStack.length - exStack.top ≤ 6) ∧
    (exStack.copy_to exStack 6).top = 4 ∧
    (exStack.copy_to exStack 6).slots 4 = exStack.slots 2 := by
  have h := copy_to_preserves exStack exStack 6 (by decide)
  refine ⟨by decide, ?_, ?_⟩
  · rw [h.2.1]
    decide
  · have h0 := h.1 0 (by decide) (by decide)
    have e : exStack.top + (6 - exStack.length) + 0 = 4 := by decide
    rw [e] at h0
    have e2 : exStack.top + 0 = 2 := by decide
    rw [e2] at h0
    exact h0

/-- C4 counterexample: with the interpreter's `sp` and `try_sp` both lying
within the stack's slot addresses `[limit, base]` but `try_sp` below `sp`,
`transfer_from_interpreter` restores `try_top = 1 < top = 2`, refuting the
claimed `try_top ≥ top`. -/
def exInterpLowTry : Interpreter :=
  { limit := 100, base := 104, sp := 102, try_sp := 101,
    in_stack_overflow := false }

def exStackOut : Stack :=
  { header := 7, task := 11, length := 4, top := -1, try_top := 3,
    in_stack_overflow := false, slots := fun i => 10 * i }

theorem transfer_from_weak_bounds_counterexample :
    (100 ≤ exInterpLowTry.sp ∧ exInterpLowTry.sp ≤ 100 + exStackOut.length) ∧
    (100 ≤ exInterpLowTry.try_sp ∧ exInterpLowTry.try_sp ≤ 100 + exStackOut.length) ∧
    (exStackOut.transfer_from_interpreter 100 exInterpLowTry).top = 2 ∧
    (exStackOut.transfer_from_interpreter 100 exInterpLowTry).try_top = 1 ∧
    ¬((exStackOut.transfer_from_interpreter 100 exInterpLowTry).try_top ≥
        (exStackOut.transfer_from_interpreter 100 exInterpLowTry).top) := by
  refine ⟨⟨by decide, by decide⟩, ⟨by decide, by decide⟩, rfl, rfl, by decide⟩

/-- C4 amended: after `transfer_to_interpreter` the stack's `top` is the
`-1` sentinel; and after `transfer_from_interpreter`, provided the
interpreter's `sp` lies strictly above the limit and at most at the base
and `try_sp` lies between `sp` and the base (the interpreter keeps
`try_sp ≥ sp`), the restored fields satisfy `0 < top ≤ length`,
`top ≤ try_top ≤ length`, and `in_stack_overflow` is rewritten from the
interpreter's live copy. -/
theorem transfer_invariants (s : Stack) (a : Int) (it : Interpreter)
    (h1 : a < it.sp) (h2 : it.sp ≤ a + s.length)
    (h3 : it.sp ≤ it.try_sp) (h4 : it.try_sp ≤ a + s.length) :
    (s.transfer_to_interpreter a).1.top = -1 ∧
    0 < (s.transfer_from_interpreter a it).top ∧
    (s.transfer_from_interpreter a it).top ≤
      (s.transfer_from_interpreter a it).length ∧
    (s.transfer_from_interpreter a it).top ≤
      (s.transfer_from_interpreter a it).try_top ∧
    (s.transfer_from_interpreter a it).try_top ≤
      (s.transfer_from_interpreter a it).length ∧
    (s.transfer_from_interpreter a it).in_stack_overflow =
      it.in_stack_overflow := by
  unfold Stack.transfer_to_interpreter Stack.transfer_from_interpreter
  refine ⟨rfl, by simp; omega, by simp; omega, by simp; omega, by simp; omega, rfl⟩

/-- Witness for `transfer_invariants`: `exStack` at address 100 with
registers `sp = 102`, `try_sp = 103`. -/
theorem transfer_invariants_witness :
    (100 < exInterp.sp ∧ exInterp.sp ≤ 100 + exStack.length ∧
      exInterp.sp ≤ exInterp.try_sp ∧ exInterp.try_sp ≤ 100 + exStack.length) ∧
    (exStack.transfer_to_interpreter 100).1.top = -1 ∧
    0 < (exStack.transfer_from_interpreter 100 exInterp).top := by
  have h := transfer_invariants exStack 100 exInterp
    (by decide) (by decide) (by decide) (by decide)
  exact ⟨⟨by decide, by decide, by decide, by decide⟩, h.1, h.2.1⟩

/-- C10: a freshly initialized stack of positive length is empty
(`top = try_top = length`, no used slots, overflow flag clear) and already
satisfies the `0 < top ≤ length` precondition of
`transfer_to_interpreter`. -/
theorem initialize_empty_and_transferable (s : Stack) (len : Int)
    (h : 0 < len) :
    (s.initialize_stack len).top = (s.initialize_stack len).length ∧
    (s.initialize_stack len).try_top = (s.initialize_stack len).length ∧
    (s.initialize_stack len).in_stack_overflow = false ∧
    (s.initialize_stack len).length - (s.initialize_stack len).top = 0 ∧
    0 < (s.initialize_stack len).top ∧
    (s.initialize_stack len).top ≤ (s.initialize_stack len).length := by
  unfold Stack.initialize_stack
  refine ⟨rfl, rfl, rfl, by simp, by simpa using h, by simp⟩

/-- Witness for `initialize_empty_and_transferable` at the initial stack
length 64 used by the VM. -/
theorem initialize_empty_and_transferable_witness :
    0 < Stack.initial_length ∧
    (exStack.initialize_stack Stack.initial_length).top = 64 ∧
    0 < (exStack.initialize_stack Stack.initial_length).top := by
  have h := initialize_empty_and_transferable exStack Stack.initial_length
    (by decide)
  exact ⟨by decide, rfl, h.2.2.2.2.1⟩

/-! ## Byte-content extraction (objects.cc, Object::byte_content and
Object::mutable_byte_content)

The receivers these extractors dispatch on are modelled as an inductive
universe: strings, byte arrays (internal, or external with a raw/struct
tag), copy-on-write byte-array instances `[backing, mutable-flag]`,
byte-array/string slice instances `[wrapped, from, to]`, smis, and anything
else. The class-id dispatch against the program's registered class ids is
baked into the constructors. Byte storage is abstracted to a base address
and a length (`Int`); the external tag comparison against `RawByteTag`
(defined in a header outside the surveyed sources) is abstracted to the
boolean of that comparison. -/

inductive TObj where
  | smi (value : Int)
  | str (addr len : Int)
  | byteArray (addr len : Int) (isExternal isRawTag : Bool)
  | cowByteArray (backing : TObj) (isMutable : Bool)
  | byteArraySlice (wrapped fromObj toObj : TObj)
  | stringSlice (wrapped fromObj toObj : TObj)
  | otherInstance
  | otherObject
deriving DecidableEq

inductive BlobKind where
  | stringsOrByteArrays
  | stringsOnly
deriving DecidableEq

/-- Source `Object::is_heap_object` at the object level: everything but a smi. -/
def TObj.is_heap_object : TObj → Bool
  | .smi _ => false
  | _ => true

/-- Source `Object::byte_content(program, &content, &length, strings_only)`:
`some (content, length)` when it returns `true`, `none` when it returns
`false` (in which case the source leaves the out-parameters untouched). -/
def TObj.byte_content : TObj → BlobKind → Option (Int × Int)
  | .str addr len, _ => some (addr, len)
  | .byteArray addr len isExternal isRawTag, .stringsOrByteArrays =>
      if isExternal ∧ ¬ isRawTag then none else some (addr, len)
  | .byteArray _ _ _ _, .stringsOnly => none
  | .cowByteArray backing _, .stringsOrByteArrays =>
      backing.byte_content .stringsOrByteArrays
  | .cowByteArray _ _, .stringsOnly => none
  | .byteArraySlice wrapped f t, .stringsOrByteArrays =>
      if ¬ wrapped.is_heap_object then none
      else match f, t with
      | .smi fv, .smi tv =>
          match wrapped.byte_content .stringsOrByteArrays with
          | none => none
          | some (addr, len) =>
              if 0 ≤ fv ∧ fv ≤ tv ∧ tv ≤ len then some (addr + fv, tv - fv)
              else none
      | _, _ => none
  | .byteArraySlice _ _ _, .stringsOnly => none
  | .stringSlice wrapped f t, k =>
      if ¬ wrapped.is_heap_object then none
      else match f, t with
      | .smi fv, .smi tv =>
          match wrapped.byte_content k with
          | none => none
          | some (addr, len) =>
              if 0 ≤ fv ∧ fv ≤ tv ∧ tv ≤ len then some (addr + fv, tv - fv)
              else none
      | _, _ => none
  | .smi _, _ => none
  | .otherInstance, _ => none
  | .otherObject, _ => none

/-- Result of `Object::mutable_byte_content(process, &content, &length,
&error)`. The out-parameters are modelled by their final values given the
caller-initialized `content = null, length = 0` (as in the `MutableBlob`
overload); `content = none` models the null pointer; `error` records
whether the error out-parameter was populated; `receiver` is the receiver
after any copy-on-write materialization. -/
structure MBC where
  ok : Bool
  content : Option Int
  length : Int
  error : Bool
  receiver : TObj
deriving DecidableEq

/-- The byte-array arm of `mutable_byte_content`: external byte arrays with
a non-raw tag fail; otherwise content and length are extracted. -/
def byte_array_mbc (addr len : Int) (isExternal isRawTag : Bool) : MBC :=
  if isExternal ∧ ¬ isRawTag then
    ⟨false, none, 0, false, .byteArray addr len isExternal isRawTag⟩
  else ⟨true, some addr, len, false, .byteArray addr len isExternal isRawTag⟩

/-- Source `Object::mutable_byte_content`. `alloc` models
`process->allocate_byte_array(length, error)`: `none` is a null return
(allocation failure) that populates the error out-parameter.

In the copy-on-write arm, a successful allocation materializes a fresh
internal byte array, rewrites the instance to `[new_backing, true]` and
recurses on the new backing; since the new backing is an internal byte
array, that recursive call is exactly the byte-array arm
(`byte_array_mbc`), written so here to keep the recursion structural.

In the slice arm, the source's
`if (content == null) return inner_success;` compares the out-parameter
pointer itself — which is never null at any call site — rather than the
extracted `*content`, so that early return is dead code and execution
always falls through to the range check; the model reflects the dead
guard by omitting it. -/
def TObj.mutable_byte_content (alloc : Int → Option Int) : TObj → MBC
  | .byteArray addr len isExternal isRawTag =>
      byte_array_mbc addr len isExternal isRawTag
  | .cowByteArray backing isMutable =>
      if isMutable then
        let r := backing.mutable_byte_content alloc
        { r with receiver := .cowByteArray r.receiver true }
      else
        match backing.byte_content .stringsOrByteArrays with
        | none => ⟨false, none, 0, false, .cowByteArray backing false⟩
        | some (_, immutable_length) =>
            match alloc immutable_length with
            | none =>
                -- `new_backing == null`: report `true` with null content and
                -- a populated error so the caller can retry after a scavenge.
                ⟨true, none, 0, true, .cowByteArray backing false⟩
            | some naddr =>
                let r := byte_array_mbc naddr immutable_length false false
                { r with receiver :=
                    .cowByteArray (.byteArray naddr immutable_length false false) true }
  | .byteArraySlice wrapped f t =>
      if ¬ wrapped.is_heap_object then
        ⟨false, none, 0, false, .byteArraySlice wrapped f t⟩
      else match f, t with
      | .smi fv, .smi tv =>
          let r := wrapped.mutable_byte_content alloc
          if ¬ r.ok then
            ⟨false, r.content, r.length, r.error, .byteArraySlice r.receiver f t⟩
          else if 0 ≤ fv ∧ fv ≤ tv ∧ tv ≤ r.length then
            ⟨true, r.content.map (fun a => a + fv), tv - fv, r.error,
              .byteArraySlice r.receiver f t⟩
          else
            ⟨false, r.content, r.length, r.error, .byteArraySlice r.receiver f t⟩
      | fo, to_ => ⟨false, none, 0, false, .byteArraySlice wrapped fo to_⟩
  | o => ⟨false, none, 0, false, o⟩

/-- An allocator that always fails (the heap is exhausted). -/
def alloc_fails : Int → Option Int := fun _ => none

/-- C1: evaluation at the failing input. On allocation failure a direct
copy-on-write receiver does return `true` with null content, zero length
and a populated error, as the claim states; but a byte-array slice
`[from=0, to=1]` wrapping the same copy-on-write byte array returns
`false`, because the null-content early return in the slice arm tests the
wrong pointer and the range check `to ≤ length` then fails against the
zero length. -/
theorem mutable_byte_content_oom_divergence :
    (TObj.cowByteArray (.byteArray 100 1 false false) false).mutable_byte_content
        alloc_fails =
      ⟨true, none, 0, true, .cowByteArray (.byteArray 100 1 false false) false⟩ ∧
    (TObj.byteArraySlice (.cowByteArray (.byteArray 100 1 false false) false)
        (.smi 0) (.smi 1)).mutable_byte_content alloc_fails =
      ⟨false, none, 0, true,
        .byteArraySlice (.cowByteArray (.byteArray 100 1 false false) false)
          (.smi 0) (.smi 1)⟩ := by
  constructor
  · rfl
  · rfl

end Toit
